import Mathlib

/-!
Shallow embedding of the `galcat` in-memory document database
(`galcat/core.py`, `galcat/validator.py`) and proofs about its
query evaluator, best-value materializer, validator and ingestion path.

Documents are JSON-like records: a mapping from field names to either a
scalar or an ordered sequence of value entries (`_recursive_json_fix`
turns the JSON lists into numpy arrays; here both are plain lists).
Python scalars are modelled by `Val` (floats as rationals, `True == 1`
numeric coercion included); fallible Python code (raised exceptions)
is modelled in the `Except String` monad.
-/

set_option autoImplicit false

namespace Galcat

/-- Scalar JSON/Python value: number (Python ints/floats as rationals),
string, or boolean. -/
inductive Val where
  | vNum (q : Rat)
  | vStr (s : String)
  | vBool (b : Bool)
deriving DecidableEq

/-- Numeric view of a value: Python treats `bool` as the integers 0/1 for
`==` and for the order comparisons; strings are not numbers. -/
def numVal : Val → Option Rat
  | .vNum q => some q
  | .vBool b => some (if b then 1 else 0)
  | .vStr _ => none

/-- Python `==` on scalars: numeric cross-type equality (`True == 1`),
string equality, and `False` on mixed string/number comparisons. -/
def pyEq (a b : Val) : Bool :=
  match numVal a, numVal b with
  | some x, some y => x == y
  | _, _ =>
    match a, b with
    | .vStr s, .vStr t => s == t
    | _, _ => false

/-- Python `<` on scalars: numeric order, lexicographic string order, and a
`TypeError` on mixed string/number operands. -/
def pyLt (a b : Val) : Except String Bool :=
  match numVal a, numVal b with
  | some x, some y => pure (decide (x < y))
  | _, _ =>
    match a, b with
    | .vStr s, .vStr t => pure (decide (s < t))
    | _, _ => .error "TypeError: unorderable types"

/-- Python `<=` on scalars, same conventions as `pyLt`. -/
def pyLe (a b : Val) : Except String Bool :=
  match numVal a, numVal b with
  | some x, some y => pure (decide (x ≤ y))
  | _, _ =>
    match a, b with
    | .vStr s, .vStr t => pure (decide (s ≤ t))
    | _, _ => .error "TypeError: unorderable types"

/-- Bibliographic reference record: a flat mapping with at least a `key`
field (`references.json` entries). -/
abbrev Reference := List (String × Val)

/-- Value stored under one key of a value entry: a scalar, a list of
scalars (e.g. `distribution` samples), or an embedded full reference
record (after `query_db(..., embed_ref=True)` substitution). -/
inductive EVal where
  | prim (v : Val)
  | arr (vs : List Val)
  | rdoc (r : Reference)
deriving DecidableEq

/-- One value entry of a multi-valued field: a small dict such as
`{"value": 9.5, "unit": "deg", "reference": "Ref2019", "best": 1}`. -/
abbrev Entry := List (String × EVal)

/-- Value of one document field: a scalar (e.g. `name`) or an ordered
sequence of value entries (the numpy array made by `_recursive_json_fix`). -/
inductive Field where
  | scalar (v : Val)
  | entries (es : List Entry)
deriving DecidableEq

/-- One catalog record: ordered mapping from field name to `Field`. -/
abbrev Doc := List (String × Field)

mutual

/-- Match specification on the right-hand side of one query key: a literal
scalar, a single-operator dict `{"$op": v}` (the source reads
`list(value.items())[0]`, so only the first operator of the dict is ever
consulted; we model the one-operator form), or a list of sub-queries
(the `$or` form). -/
inductive Spec where
  | lit (v : Val)
  | opq (o : String) (v : Val)
  | orq (subs : OrList)

/-- List of sub-queries under an `$or` key. -/
inductive OrList where
  | onil
  | ocons (q : SubQuery) (rest : OrList)

/-- One sub-query of an `$or` list: an ordered mapping from query keys to
match specifications (a Python dict in the source). -/
inductive SubQuery where
  | snil
  | scons (k : String) (s : Spec) (rest : SubQuery)

end

/-- Query mapping in MongoDB style, e.g.
`{"surface_brightness.value": {"$gt": 27}, "$or": [...]}`.
Keys are unique and ordered, as in a Python dict. -/
abbrev Query := List (String × Spec)

/-- Helper for `splitDot`: accumulate characters up to each separator. -/
def splitDotGo (sep : Char) : List Char → List Char → List (List Char)
  | [], acc => [acc.reverse]
  | c :: cs, acc =>
    if c = sep then acc.reverse :: splitDotGo sep cs []
    else splitDotGo sep cs (c :: acc)

/-- Python `key.split('.')`: always returns at least one element. -/
def splitDot (s : String) : List String :=
  (splitDotGo '.' s.data []).map (fun cs => String.mk cs)

/-- Python `key_list[0].startswith('$')`: test of the first character. -/
def startsDollar (s : String) : Bool :=
  match s.data with
  | [] => false
  | c :: _ => c = '$'

/-- Python `key in doc` membership test on a document. -/
def hasKey (d : Doc) (k : String) : Bool :=
  (List.lookup k d).isSome

/-- The message of the `RuntimeError` raised by `_sub_query` for `$exists`. -/
def existsRollbackMsg : String :=
  "Use of $exists has been rolled back and only works with the MongoDB implementation."

/-- The message of the `RuntimeError` raised for an unrecognized operator. -/
def unsupportedMsg (o : String) : String :=
  "ERROR: " ++ o ++ " not yet supported"

/-- Truth-value error raised by numpy when a multi-element boolean array is
used in a boolean context (`bool(array)` with more than one element). -/
def truthAmbiguousMsg : String :=
  "ValueError: truth value of an array with more than one element is ambiguous"

/-- Python `elem[key[0]]` where a sequence of entries is then iterated:
`KeyError` when the field is absent, `TypeError` when it is a scalar. -/
def getEntries (d : Doc) (k : String) : Except String (List Entry) :=
  match List.lookup k d with
  | none => .error "KeyError"
  | some (.scalar _) => .error "TypeError: object is not iterable"
  | some (.entries es) => pure es

/-- Python `key[1]` inside the per-entry lambdas: `IndexError` when the
query key had no dotted sub-field. -/
def subField (kl : List String) : Except String String :=
  match kl.get? 1 with
  | some x => pure x
  | none => .error "IndexError: list index out of range"

/-- Python `y.get(key[1]) == value` on one entry: a missing sub-field
compares as `None` (never equal to a scalar), lists and embedded reference
dicts are never equal to a scalar. -/
def optEValEq (o : Option EVal) (v : Val) : Bool :=
  match o with
  | some (.prim w) => pyEq w v
  | _ => false

/-- Dispatch of `y.get(key[1]) OP sub_value` for the four comparison
operators (`w` is the entry sub-field, `v` the query operand). -/
def pyCmpOp (o : String) (w v : Val) : Except String Bool :=
  if o = "$gt" then pyLt v w
  else if o = "$gte" then pyLe v w
  else if o = "$lt" then pyLt w v
  else if o = "$lte" then pyLe w v
  else .error (unsupportedMsg o)

/-- Python `dict == dict` for the corner where an entry is compared with a
one-operator query dict `{o: v}` (single-segment key, one-entry field). -/
def entryEqOpDict (e : Entry) (o : String) (v : Val) : Bool :=
  match e with
  | [(k, .prim w)] => k == o && pyEq w v
  | _ => false

mutual

/-- Value/operator test of `_sub_query` on one candidate document `d`
(the body of the per-element loop, and the straight `doc[key[0]] == value`
check for single-segment non-`$` keys). `kl` is the dot-split query key. -/
def valMatch (kl : List String) (s : Spec) (d : Doc) : Except String Bool :=
  let k0 := kl.headD ""
  if kl.length > 1 || startsDollar k0 then
    match s with
    | .lit v => do
        let es ← getEntries d k0
        let bs ← es.mapM (fun y => do
          let k1 ← subField kl
          pure (optEValEq (List.lookup k1 y) v))
        pure (bs.any id)
    | .opq o v =>
        if o = "$exists" then .error existsRollbackMsg
        else if o = "$gt" || o = "$gte" || o = "$lt" || o = "$lte" then do
          let es ← getEntries d k0
          let bs ← es.mapM (fun y => do
            let k1 ← subField kl
            match (List.lookup k1 y : Option EVal) with
            | some (.prim w) => pyCmpOp o w v
            | some _ => .error "TypeError: unorderable types"
            | none => .error "TypeError: unorderable types")
          pure (bs.any id)
        else .error (unsupportedMsg o)
    | .orq subs =>
        if k0 = "$or" then orAny subs d
        else if k0 = "$gt" || k0 = "$gte" || k0 = "$lt" || k0 = "$lte" then do
          let es ← getEntries d k0
          let bs ← es.mapM (fun y => do
            let k1 ← subField kl
            let _ := List.lookup k1 y
            (.error "TypeError: unorderable types" : Except String Bool))
          pure (bs.any id)
        else .error (unsupportedMsg k0)
  else
    match List.lookup k0 d with
    | none => .error "KeyError"
    | some (.scalar w) =>
        match s with
        | .lit v => pure (pyEq w v)
        | .opq _ _ => pure false
        | .orq _ => pure false
    | some (.entries es) =>
        match s with
        | .lit _ => if es.length > 1 then .error truthAmbiguousMsg else pure false
        | .opq o v =>
            if es.length > 1 then .error truthAmbiguousMsg
            else pure (match es with
              | [e] => entryEqOpDict e o v
              | _ => false)
        | .orq _ => .error truthAmbiguousMsg
termination_by structural s

/-- Accumulation of `temp_list` over the `$or` sub-query list: every
sub-query is evaluated against the single candidate (no short-circuit on
success, so an error raised by a later sub-query still propagates). -/
def orAny (subs : OrList) (d : Doc) : Except String Bool :=
  match subs with
  | .onil => pure false
  | .ocons q rest => do
      let b1 ← orOne q d
      let b2 ← orAny rest d
      pure (b1 || b2)
termination_by structural subs

/-- Accumulation over the keys of one `$or` sub-query: the source iterates
`for k, v in sub_sub_query.items()` and unions the per-key results, with
the presence pre-filter applied to the singleton candidate first. -/
def orOne (q : SubQuery) (d : Doc) : Except String Bool :=
  match q with
  | .snil => pure false
  | .scons k sp rest => do
      let kl := splitDot k
      let b1 ← if hasKey d (kl.headD "") then valMatch kl sp d else pure false
      let b2 ← orOne rest d
      pure (b1 || b2)
termination_by structural q

end

/-- Monadic filter mirroring Python `np.array(list(filter(pred, xs)))`
where `pred` may raise: elements are tested in order and the first raised
exception aborts the whole filter. -/
def exceptFilter {α : Type} (p : α → Except String Bool) : List α → Except String (List α)
  | [] => pure []
  | x :: xs => do
      let b ← p x
      let r ← exceptFilter p xs
      pure (if b then x :: r else r)

/-- Per-document predicate equivalent of one `_query_manual` loop step:
presence pre-filter (for non-`$` keys) followed by the value test. -/
def stepPredE (k : String) (s : Spec) (d : Doc) : Except String Bool :=
  let kl := splitDot k
  if startsDollar (kl.headD "") then valMatch kl s d
  else if hasKey d (kl.headD "") then valMatch kl s d
  else pure false

/-- One iteration of the `_query_manual` loop over a backing sequence of
candidates (`deref` retrieves the document a candidate refers to, so the
same code serves the document list and the heap-address model): for a
plain key, filter to documents containing the field, then apply the value
filter only when at least one candidate remains; `$`-keys skip the
presence pre-filter. -/
def queryStepG {α : Type} (deref : α → Doc) (S : List α) (k : String) (s : Spec) :
    Except String (List α) :=
  let kl := splitDot k
  if startsDollar (kl.headD "") then
    exceptFilter (fun x => valMatch kl s (deref x)) S
  else
    let S1 := S.filter (fun x => hasKey (deref x) (kl.headD ""))
    if 1 ≤ S1.length then exceptFilter (fun x => valMatch kl s (deref x)) S1
    else pure S1

/-- The `_query_manual` loop: narrow the candidate set key by key. -/
def queryManualG {α : Type} (deref : α → Doc) (S : List α) (q : Query) :
    Except String (List α) :=
  match q with
  | [] => pure S
  | (k, s) :: rest => do
      let S1 ← queryStepG deref S k s
      queryManualG deref S1 rest

/-- `Database._query_manual`: evaluate a query against the in-memory
collection of documents.  (`query_db` with `embed_ref=False` returns this
result unchanged.) -/
def queryManual (S : List Doc) (q : Query) : Except String (List Doc) :=
  queryManualG id S q

/-! Reference lookup and reference embedding (`query_reference` and the
`embed_ref=True` branch of `query_db`). -/

/-- Python truthiness of a scalar (`if name:`, `if ref_key:`). -/
def truthyV : Val → Bool
  | .vStr s => !(s == "")
  | .vNum q => !(q == 0)
  | .vBool b => b

/-- Python truthiness of an entry value: empty strings, zero, empty lists
and empty dicts are falsy. -/
def truthyE : EVal → Bool
  | .prim v => truthyV v
  | .arr vs => !vs.isEmpty
  | .rdoc r => !r.isEmpty

/-- Test of one reference record against `{id_column: rk}`: the presence
filter of `query_reference` followed by the scalar equality check. -/
def refMatchesV (idc : String) (rk : Val) (r : Reference) : Bool :=
  match List.lookup idc r with
  | some v => pyEq v rk
  | none => false

/-- `query_reference({id_column: rk})` for a scalar key. -/
def queryRefsV (refs : List Reference) (idc : String) (rk : Val) : List Reference :=
  refs.filter (refMatchesV idc rk)

/-- Test of one reference record against an arbitrary entry value: a list
or an embedded dict never equals the scalar key of a stored reference. -/
def refMatchesE (idc : String) (rk : EVal) (r : Reference) : Bool :=
  match rk with
  | .prim v => refMatchesV idc v r
  | _ => false

/-- `query_reference({id_column: rk})` for an arbitrary entry value. -/
def queryRefsE (refs : List Reference) (idc : String) (rk : EVal) : List Reference :=
  refs.filter (refMatchesE idc rk)

/-- Python dict assignment `d[k] = v` on an association list: replace the
value in place when the key exists, append otherwise. -/
def setAssoc {α : Type} : List (String × α) → String → α → List (String × α)
  | [], k, v => [(k, v)]
  | (k', v') :: rest, k, v =>
    if k' = k then (k, v) :: rest
    else (k', v') :: setAssoc rest k v

/-- Reference substitution on one entry
(`doc[key][i]['reference'] = ref[0]`): when the entry carries a truthy
scalar `reference` and the lookup finds a record, the bare key is replaced
by the full record.  An already-embedded dict (or a list) never matches a
stored scalar key, so it is left unchanged. -/
def embedEntry (refs : List Reference) (ridc : String) (e : Entry) : Entry :=
  match List.lookup "reference" e with
  | some (.prim rv) =>
      if truthyV rv then
        match queryRefsV refs ridc rv with
        | [] => e
        | r :: _ => setAssoc e "reference" (.rdoc r)
      else e
  | _ => e

/-- Reference substitution on a whole document: scalar fields are skipped
(`continue` on non-list values), every entry of every multi-valued field
is processed. -/
def embedDoc (refs : List Reference) (ridc : String) (d : Doc) : Doc :=
  d.map (fun kf =>
    match kf with
    | (k, .scalar v) => (k, .scalar v)
    | (k, .entries es) => (k, .entries (es.map (embedEntry refs ridc))))

/-! Heap model for the `embed_ref=True` path.  In the source, `self.db`
holds shared document objects and `_query_manual` returns aliases into it;
`query_db` first `deepcopy`-ies the result and then mutates only the
copies.  Here the heap is a list of documents, the collection and the
query result are lists of heap addresses, a deep copy allocates fresh
addresses past the end of the heap, and the mutation loop updates the heap
at those fresh addresses. -/

/-- Dereference a heap address. -/
def derefH (H : List Doc) (a : Nat) : Doc := H.getD a []

/-- `deepcopy(result)`: allocate one fresh copy per result element and
return the fresh addresses. -/
def deepcopyFresh (H : List Doc) (res : List Nat) : List Doc × List Nat :=
  (H ++ res.map (fun a => H.getD a []), List.range' H.length res.length)

/-- The embedding loop of `query_db`: mutate, in order, each (freshly
copied) result document in place. -/
def embedMutate (refs : List Reference) (ridc : String) : List Doc → List Nat → List Doc
  | H, [] => H
  | H, a :: rest =>
      embedMutate refs ridc (H.set a (embedDoc refs ridc (H.getD a []))) rest

/-- `query_db(query, embed_ref=True)` over the heap model: evaluate the
query on the stored documents, deep-copy the result set, substitute the
full reference records into the copies, and return the new heap with the
addresses of the copies. -/
def queryDbEmbed (H : List Doc) (db : List Nat) (refs : List Reference)
    (ridc : String) (q : Query) : Except String (List Doc × List Nat) := do
  let res ← queryManualG (fun a => H.getD a []) db q
  let (H1, fresh) := deepcopyFresh H res
  pure (embedMutate refs ridc H1 fresh, fresh)

/-! Best-value materializer (`query_table`). -/

/-- Numpy boolean-mask indexing `xs[mask]`. -/
def maskFilter {α : Type} : List α → List Bool → List α
  | [], _ => []
  | _ :: _, [] => []
  | x :: xs, b :: bs => if b then x :: maskFilter xs bs else maskFilter xs bs

/-- Elementwise Python `==` between an entry value and a scalar (used for
the curation-reference mask and the `best == 1` mask). -/
def evalEqV (a : EVal) (c : Val) : Bool :=
  match a with
  | .prim w => pyEq w c
  | _ => false

/-- The `x.get('best', 0) == 1` test: a missing `best` key defaults to 0
and is therefore never equal to 1. -/
def bestOne (e : Entry) : Bool :=
  evalEqV ((List.lookup "best" e).getD (.prim (.vNum 0))) (.vNum 1)

/-- Python `x['reference']`: `KeyError` when the entry lacks the key. -/
def getReference (e : Entry) : Except String EVal :=
  match List.lookup "reference" e with
  | some r => pure r
  | none => .error "KeyError: reference"

/-- Entry selection of `query_table` for one multi-valued field: with more
than one entry, prefer the curation override mask
(`[x['reference'] for x in val] == curation_dict[key]`), otherwise the
`best == 1` mask, and take the first masked entry if any (`val[ind][0]`);
with at most one entry, take `val[0]` unconditionally (an `IndexError`
when the field is an empty sequence). -/
def selectEntry (cur : List (String × Val)) (k : String) (es : List Entry) :
    Except String (Option Entry) :=
  if es.length > 1 then
    match List.lookup k cur with
    | some cref => do
        let refs ← es.mapM getReference
        pure (maskFilter es (refs.map (fun r => evalEqV r cref))).head?
    | none =>
        pure (maskFilter es (es.map bestOne)).head?
  else
    match es with
    | [] => .error "IndexError: index 0 is out of bounds"
    | e :: _ => pure (some e)

/-- Conversion of one sample to a number (numpy refuses non-numeric
sample arrays). -/
def toNum (v : Val) : Except String Rat :=
  match numVal v with
  | some q => pure q
  | none => .error "TypeError: cannot compute the mean of non-numeric samples"

/-- The consumed part of `_get_values_from_distribution`: the sample mean
(`pdf_mean`).  The source also computes the standard deviation, which
`query_table` discards. -/
def distMean (ev : EVal) : Except String Val :=
  match ev with
  | .arr vs => do
      let rs ← vs.mapM toNum
      if rs.length = 0 then .error "ValueError: mean of an empty distribution"
      else pure (.vNum (rs.sum / (rs.length : Rat)))
  | _ => .error "TypeError: distribution is not a sequence of samples"

/-- Materialized cell of the output table: a bare value, or a value with
an attached unit (an astropy `Quantity` in the source). -/
inductive MatVal where
  | bare (v : EVal)
  | quant (v : EVal) (u : EVal)
deriving DecidableEq

/-- `Database._store_quantity`: attach the unit when it is truthy and
recognized (`validUnit` stands for astropy unit parsing); on an
unrecognized unit the bare value is kept. -/
def storeQuantity (validUnit : EVal → Bool) (v : EVal) (u : Option EVal) : MatVal :=
  match u with
  | some uu => if truthyE uu then (if validUnit uu then .quant v uu else .bare v) else .bare v
  | none => .bare v

/-- Value extraction from the selected entry: reduce a `distribution` to
its mean when present, otherwise read `value` (a `KeyError` when absent),
then attach the unit. -/
def extractVal (validUnit : EVal → Bool) (e : Entry) : Except String MatVal := do
  let unit := List.lookup "unit" e
  match List.lookup "distribution" e with
  | some dv => do
      let v ← distMean dv
      pure (storeQuantity validUnit (.prim v) unit)
  | none =>
      match List.lookup "value" e with
      | some v => pure (storeQuantity validUnit v unit)
      | none => .error "KeyError: value"

/-- Row construction of `query_table` for one result document: scalar
fields pass through, each multi-valued field contributes its selected
entry value, and a field whose selection is empty is omitted from the
row (not an error). -/
def buildRow (validUnit : EVal → Bool) (cur : List (String × Val)) :
    Doc → Except String (List (String × MatVal))
  | [] => pure []
  | (k, .scalar v) :: rest => do
      let r ← buildRow validUnit cur rest
      pure ((k, .bare (.prim v)) :: r)
  | (k, .entries es) :: rest => do
      let sel ← selectEntry cur k es
      match sel with
      | none => buildRow validUnit cur rest
      | some e => do
          let mv ← extractVal validUnit e
          let r ← buildRow validUnit cur rest
          pure ((k, mv) :: r)

/-- Python `dict.update`: overwrite existing keys in place, append new
ones (used for `curation_dict.update(selection)`). -/
def dictUpdate {α : Type} (base upd : List (String × α)) : List (String × α) :=
  upd.foldl (fun b kv => setAssoc b kv.1 kv.2) base

/-- The row-building part of `query_table`: evaluate the query, merge the
user selection over the curation, and materialize one flat row per result
document.  (The astropy table construction, coordinate guessing and
column reordering that follow operate on these rows.) -/
def queryTableRows (validUnit : EVal → Bool) (S : List Doc) (q : Query)
    (curation selection : List (String × Val)) :
    Except String (List (List (String × MatVal))) := do
  let results ← queryManual S q
  results.mapM (buildRow validUnit (dictUpdate curation selection))

/-! Validator (`galcat/validator.py`). -/

/-- `Validator.check_name`: the identifying field must hold a truthy
value, otherwise a `RuntimeError` is raised.  (A multi-valued identifying
field would hit the numpy truth-value ambiguity.) -/
def checkName (idc : String) (d : Doc) : Except String Val :=
  match List.lookup idc d with
  | some (.scalar v) =>
      if truthyV v then pure v
      else .error "RuntimeError: JSON does not provide a valid name"
  | some (.entries _) => .error truthAmbiguousMsg
  | none => .error "RuntimeError: JSON does not provide a valid name"

/-- `Validator.check_exists`: query the collection for the name; `True`
when at least one document matches, otherwise a printed warning and
`False`. -/
def checkExists (S : List Doc) (idc : String) (v : Val) : Except String Bool := do
  let r ← queryManual S [(idc, .lit v)]
  pure (decide (r.length > 0))

/-- `Validator.check_references` on one entry: a missing or empty
reference fails; with reference checking enabled, the key must resolve to
a stored record whose `key` field equals it. -/
def checkReferences (refCheck : Bool) (refs : List Reference) (e : Entry) : Bool :=
  match List.lookup "reference" e with
  | none => false
  | some rv =>
      if rv = .prim (.vStr "") then false
      else
        let dbRef := queryRefsE refs "key" rv
        if refCheck then
          match dbRef with
          | [] => false
          | r :: _ =>
              match List.lookup "key" r, rv with
              | some kv, .prim pv => pyEq kv pv
              | _, _ => false
        else true

/-- Per-entry checks of `Validator.check_values`: a `value` or
`distribution` must be present, the reference must check out (when
enabled), and a truthy `unit` must be recognizable. -/
def entryValCheck (validUnit : EVal → Bool) (refCheck : Bool)
    (refs : List Reference) (e : Entry) : Bool :=
  let hasVal := !((List.lookup "value" e).isNone && (List.lookup "distribution" e).isNone)
  let refOk := !refCheck || checkReferences refCheck refs e
  let unitOk :=
    match List.lookup "unit" e with
    | some u => if truthyE u then validUnit u else true
    | none => true
  hasVal && refOk && unitOk

/-- `Validator.check_values`: conjunction of the per-entry checks over all
non-identifying fields (every failure is collected; the result is the
conjunction).  Iterating a non-empty scalar field raises a `TypeError`;
an empty string iterates zero times. -/
def checkValues (validUnit : EVal → Bool) (refCheck : Bool) (refs : List Reference)
    (idc : String) : Doc → Except String Bool
  | [] => pure true
  | (k, f) :: rest =>
      if k = idc then checkValues validUnit refCheck refs idc rest
      else
        match f with
        | .scalar (.vStr "") => checkValues validUnit refCheck refs idc rest
        | .scalar _ => .error "TypeError: object is not iterable"
        | .entries es => do
            let b := es.all (entryValCheck validUnit refCheck refs)
            let r ← checkValues validUnit refCheck refs idc rest
            pure (b && r)

/-- `Validator.run_one` for a data document (hence also `Validator.run`
for a single candidate): the name check may raise, then the result is the
conjunction of the existence check and the value checks. -/
def runOne (validUnit : EVal → Bool) (S : List Doc) (refs : List Reference)
    (idc : String) (refCheck : Bool) (cand : Doc) : Except String Bool := do
  let name ← checkName idc cand
  let ex ← checkExists S idc name
  let vc ← checkValues validUnit refCheck refs idc cand
  pure (ex && vc)

/-! Ingestion of updates (`Database.add_data`). -/

/-- Elementwise Python `==` on lists of scalars. -/
def listPyEq (as bs : List Val) : Bool :=
  as.length == bs.length && (List.zip as bs).all (fun p => pyEq p.1 p.2)

/-- Python `==` on flat dicts (order-insensitive, value comparison by
Python equality). -/
def dictPyEq (a b : Reference) : Bool :=
  a.length == b.length &&
  a.all (fun kv => match List.lookup kv.1 b with | some v => pyEq kv.2 v | none => false) &&
  b.all (fun kv => (List.lookup kv.1 a).isSome)

/-- Python `==` on entry values (used by the `ref in ref_list` membership
test of `add_data`). -/
def pyEqE : EVal → EVal → Bool
  | .prim a, .prim b => pyEq a b
  | .arr as, .arr bs => listPyEq as bs
  | .rdoc a, .rdoc b => dictPyEq a b
  | _, _ => false

/-- `old_doc[k][ind] = v[i]` with `ind = np.where(ref_list == ref)`:
replace every position whose original reference equals `ref`. -/
def replaceByRef : List Entry → List EVal → EVal → Entry → List Entry
  | [], _, _, _ => []
  | es, [], _, _ => es
  | e :: es, r :: rs, ref, v =>
      (if pyEqE r ref then v else e) :: replaceByRef es rs ref v

/-- The per-field insert loop of `add_data`: `ref_list` is computed once
from the old entries; each new entry with a duplicated reference is either
skipped or (with `update_value`) overwrites the matching positions, and
otherwise is appended. -/
def mergeEntries (updateValue : Bool) (refList : List EVal) :
    List Entry → List Entry → Except String (List Entry)
  | cur, [] => pure cur
  | cur, v :: rest => do
      let ref ← getReference v
      if refList.any (fun r => pyEqE r ref) then
        if updateValue then
          mergeEntries updateValue refList (replaceByRef cur refList ref v) rest
        else mergeEntries updateValue refList cur rest
      else mergeEntries updateValue refList (cur ++ [v]) rest

/-- The merge loop of `add_data` over all non-identifying fields of the
update: a new field is appended as-is, an existing multi-valued field is
merged entry by entry (`x['reference']` raising a `KeyError` on entries
without a reference), and a scalar on either side fails when iterated. -/
def mergeData (updateValue : Bool) (idc : String) : Doc → Doc → Except String Doc
  | old, [] => pure old
  | old, (k, f) :: rest =>
      if k = idc then mergeData updateValue idc old rest
      else
        match List.lookup k old with
        | none => mergeData updateValue idc (old ++ [(k, f)]) rest
        | some (.scalar _) => .error "TypeError: object is not iterable"
        | some (.entries oldEs) =>
            match f with
            | .scalar _ => .error "TypeError: object is not iterable"
            | .entries newEs => do
                let refList ← oldEs.mapM getReference
                let merged ← mergeEntries updateValue refList oldEs newEs
                mergeData updateValue idc (setAssoc old k (.entries merged)) rest

/-- `Database.add_data` on the in-memory backend.  The result pairs the
new collection with the message printed to the caller.  Note the source
runs `self.query_db({id_column: name})[0]` before its
`if len(old_doc) == 0` guard: on an unmatched name the indexing raises an
`IndexError`, so the guard (kept here verbatim, testing the number of
keys of the first result) is unreachable for empty results.  The
validator is constructed with its own default identifying field `name`,
independent of the `id_column` argument; because the source merge mutates
the queried document in place, the final `np.where` replacement is
modelled by substituting the merged document for the old one. -/
def addData (validUnit : EVal → Bool) (S : List Doc) (refs : List Reference)
    (idc : String) (validate updateValue : Bool) (newData : Doc) :
    Except String (List Doc × String) := do
  let keep ←
    if validate then runOne validUnit S refs "name" true newData
    else pure true
  if !keep then pure (S, "Failed validation")
  else
    match List.lookup idc newData with
    | none => .error "RuntimeError: JSON data is missing name information"
    | some (.entries _) => .error truthAmbiguousMsg
    | some (.scalar nameV) => do
        let r ← queryManual S [(idc, .lit nameV)]
        match r with
        | [] => .error "IndexError: index 0 is out of bounds"
        | old :: _ =>
            if old.length = 0 then
              pure (S, "does not exist in the database; use load_file_to_db to load new objects")
            else do
              let merged ← mergeData updateValue idc old newData
              pure (S.map (fun d => if d = old then merged else d),
                    "Data has been updated; consider running save_all")

/-! Concrete sample data, mirroring the shapes of the test fixtures
(`galcat/tests/test_data`): two galaxy records, one reference record, and
one candidate update naming an unknown galaxy. -/

/-- Sample record with `v_mag` and `radial_velocity` fields. -/
def exGal1 : Doc :=
  [("name", .scalar (.vStr "Gal 1")),
   ("v_mag", .entries [[("value", .prim (.vNum 9)), ("best", .prim (.vNum 1)),
                        ("reference", .prim (.vStr "Ref1"))]]),
   ("radial_velocity", .entries [[("value", .prim (.vNum (-120))),
                                  ("reference", .prim (.vStr "Ref1"))]])]

/-- Sample record without a `radial_velocity` field. -/
def exGal2 : Doc :=
  [("name", .scalar (.vStr "Gal 2")),
   ("v_mag", .entries [[("value", .prim (.vNum 20)), ("best", .prim (.vNum 1)),
                        ("reference", .prim (.vStr "Ref2"))]])]

/-- Sample two-record collection. -/
def exDb : List Doc := [exGal1, exGal2]

/-- Sample reference collection. -/
def exRefs : List Reference := [[("key", .vStr "Ref1"), ("id", .vNum 1)]]

/-- Candidate update whose name matches no stored record but whose entries
pass every per-entry check. -/
def exGal9 : Doc :=
  [("name", .scalar (.vStr "Gal 9")),
   ("ebv", .entries [[("value", .prim (.vNum 1)), ("reference", .prim (.vStr "Ref1"))]])]

/-- The `reference` value of an entry, with the (never-matching) default
used only to state the selection mask of `query_table` as a pure map. -/
def refOf (e : Entry) : EVal :=
  (List.lookup "reference" e).getD (.prim (.vNum 0))

/-- Entry flagged best (the curation-scenario field with two entries). -/
def exRaBest : Entry :=
  [("value", .prim (.vNum 9)), ("best", .prim (.vNum 1)),
   ("reference", .prim (.vStr "RefA"))]

/-- Entry carrying the reference named by the curation override. -/
def exRaFake : Entry :=
  [("value", .prim (.vNum 999)), ("reference", .prim (.vStr "FakeRef2019"))]

/-- Two-entry field for the curation scenario. -/
def exRa : List Entry := [exRaBest, exRaFake]

/-- Two-entry field where no entry is flagged best. -/
def exNoBest : List Entry :=
  [[("value", .prim (.vNum 5))], [("value", .prim (.vNum 6))]]

/-- Three-entry field: one entry without a best key, then two entries both
flagged best. -/
def exMulti : List Entry :=
  [[("value", .prim (.vNum 1))],
   [("value", .prim (.vNum 2)), ("best", .prim (.vNum 1))],
   [("value", .prim (.vNum 3)), ("best", .prim (.vNum 1))]]

/-! Decidable equality on `Except` results, so that concrete runs of the
embedded functions can be settled by `decide`. -/

/-- Decidable equality for `Except`. -/
def exceptDecEq {ε α : Type} [DecidableEq ε] [DecidableEq α] : DecidableEq (Except ε α)
  | .error e, .error f =>
      match decEq e f with
      | isTrue h => isTrue (by rw [h])
      | isFalse h => isFalse (fun hh => by injection hh; contradiction)
  | .error _, .ok _ => isFalse (fun hh => Except.noConfusion hh)
  | .ok _, .error _ => isFalse (fun hh => Except.noConfusion hh)
  | .ok a, .ok b =>
      match decEq a b with
      | isTrue h => isTrue (by rw [h])
      | isFalse h => isFalse (fun hh => by injection hh; contradiction)

instance {ε α : Type} [DecidableEq ε] [DecidableEq α] : DecidableEq (Except ε α) :=
  exceptDecEq

/-! Semantics of the evaluator as a pure per-document filter.  Each loop
step of `_query_manual` tests candidates one by one, so whenever a run
completes without raising, its result is the order-preserving sublist of
the candidates satisfying a pure predicate. -/

/-- Boolean collapse of a monadic predicate result (an error counts as a
failed match; this is only used below hypotheses excluding errors). -/
def okTrue (e : Except String Bool) : Bool :=
  match e with
  | .ok b => b
  | .error _ => false

/-- Pure per-document interpretation of a whole query: the conjunction of
the per-key step predicates. -/
def qPredB {α : Type} (deref : α → Doc) (q : Query) (x : α) : Bool :=
  q.all (fun p => okTrue (stepPredE p.1 p.2 (deref x)))

theorem exceptFilter_ok_of {α : Type} (p : α → Except String Bool) (S : List α)
    (h : ∀ x ∈ S, ∃ b, p x = .ok b) :
    exceptFilter p S = .ok (S.filter (fun x => okTrue (p x))) := by
  induction S with
  | nil => rfl
  | cons x xs ih =>
      obtain ⟨b, hb⟩ := h x (List.mem_cons_self x xs)
      have hxs := ih (fun y hy => h y (List.mem_cons_of_mem x hy))
      simp only [exceptFilter, hb, hxs, List.filter_cons, okTrue, bind, Except.bind, pure,
        Except.pure]

theorem exceptFilter_ok_elim {α : Type} (p : α → Except String Bool) :
    ∀ (S r : List α), exceptFilter p S = .ok r →
      (∀ x ∈ S, ∃ b, p x = .ok b) ∧ r = S.filter (fun x => okTrue (p x)) := by
  intro S
  induction S with
  | nil =>
      intro r h
      simp only [exceptFilter, pure, Except.pure, Except.ok.injEq] at h
      simp [← h]
  | cons x xs ih =>
      intro r h
      cases hpx : p x with
      | error e =>
          rw [exceptFilter, hpx] at h
          simp [bind, Except.bind] at h
      | ok b =>
          rw [exceptFilter, hpx] at h
          cases hrest : exceptFilter p xs with
          | error e =>
              rw [hrest] at h
              simp [bind, Except.bind] at h
          | ok r' =>
              rw [hrest] at h
              simp only [bind, Except.bind, pure, Except.pure, Except.ok.injEq] at h
              obtain ⟨hall, hr'⟩ := ih r' hrest
              refine ⟨?_, ?_⟩
              · intro y hy
                rcases List.mem_cons.mp hy with hy | hy
                · exact ⟨b, hy ▸ hpx⟩
                · exact hall y hy
              · rw [← h, List.filter_cons, hr']
                cases b <;> simp [okTrue, hpx]

theorem exceptFilter_gate {α : Type} (p : α → Except String Bool) (c : α → Bool)
    (S : List α) :
    exceptFilter p (S.filter c) =
      exceptFilter (fun x => if c x then p x else pure false) S := by
  induction S with
  | nil => rfl
  | cons x xs ih =>
      by_cases hc : c x
      · simp only [List.filter_cons, hc, if_true, exceptFilter, ih]
      · simp only [List.filter_cons, hc, if_false, exceptFilter, ih, Bool.false_eq_true]
        cases hrest : exceptFilter (fun x => if c x then p x else pure false) xs <;>
          simp [bind, Except.bind, pure, Except.pure, hrest]

theorem queryStepG_eq {α : Type} (deref : α → Doc) (S : List α) (k : String) (s : Spec) :
    queryStepG deref S k s = exceptFilter (fun x => stepPredE k s (deref x)) S := by
  unfold queryStepG stepPredE
  simp only [List.headD_eq_head?]
  by_cases hd : startsDollar ((splitDot k).head?.getD "")
  · simp [hd]
  · simp only [hd, if_false, Bool.false_eq_true]
    have hg := exceptFilter_gate (fun x => valMatch (splitDot k) s (deref x))
      (fun x => hasKey (deref x) ((splitDot k).head?.getD "")) S
    by_cases hlen :
        1 ≤ (S.filter (fun x => hasKey (deref x) ((splitDot k).head?.getD ""))).length
    · rw [if_pos hlen]
      exact hg
    · rw [if_neg hlen]
      have hnil : S.filter (fun x => hasKey (deref x) ((splitDot k).head?.getD "")) = [] := by
        have := Nat.lt_of_not_le hlen
        exact List.eq_nil_of_length_eq_zero (Nat.lt_one_iff.mp this)
      rw [hnil] at hg
      rw [hnil]
      exact hg

theorem queryManualG_ok {α : Type} (deref : α → Doc) (q : Query) :
    ∀ (S r : List α), queryManualG deref S q = .ok r →
      r = S.filter (qPredB deref q) ∧
      ∀ S' : List α, (∀ x, x ∈ S' → x ∈ S) →
        queryManualG deref S' q = .ok (S'.filter (qPredB deref q)) := by
  induction q with
  | nil =>
      intro S r h
      simp only [queryManualG, pure, Except.pure, Except.ok.injEq] at h
      have htriv : qPredB deref ([] : Query) = fun _ => true := by
        funext x
        simp [qPredB]
      constructor
      · rw [htriv, List.filter_true, h]
      · intro S' _
        rw [htriv, List.filter_true]
        simp [queryManualG, pure, Except.pure]
  | cons p rest ih =>
      obtain ⟨k, s⟩ := p
      intro S r h
      rw [queryManualG, queryStepG_eq] at h
      cases h1 : exceptFilter (fun x => stepPredE k s (deref x)) S with
      | error e => rw [h1] at h; simp [bind, Except.bind] at h
      | ok S1 =>
          rw [h1] at h
          simp only [bind, Except.bind] at h
          obtain ⟨hall, hS1⟩ := exceptFilter_ok_elim _ S S1 h1
          obtain ⟨hr, hstab⟩ := ih S1 r h
          have hpred : ∀ T : List α,
              (T.filter (fun x => okTrue (stepPredE k s (deref x)))).filter
                  (qPredB deref rest) =
                T.filter (qPredB deref ((k, s) :: rest)) := by
            intro T
            rw [List.filter_filter]
            refine List.filter_congr ?_
            intro x _
            simp [qPredB, Bool.and_comm]
          constructor
          · rw [hr, hS1, hpred]
          · intro S' hsub
            rw [queryManualG, queryStepG_eq]
            have hall' : ∀ x ∈ S', ∃ b, stepPredE k s (deref x) = .ok b :=
              fun x hx => hall x (hsub x hx)
            rw [exceptFilter_ok_of _ _ hall']
            simp only [bind, Except.bind]
            have hsub1 : ∀ x,
                x ∈ S'.filter (fun x => okTrue (stepPredE k s (deref x))) → x ∈ S1 := by
              intro x hx
              obtain ⟨hxS', hxp⟩ := List.mem_filter.mp hx
              rw [hS1]
              exact List.mem_filter.mpr ⟨hsub x hxS', hxp⟩
            rw [hstab _ hsub1, hpred S']

theorem queryManualG_append {α : Type} (deref : α → Doc) (A B : Query) :
    ∀ S : List α, queryManualG deref S (A ++ B) =
      (queryManualG deref S A).bind (fun r => queryManualG deref r B) := by
  induction A with
  | nil =>
      intro S
      simp [queryManualG, pure, Except.pure, Except.bind]
  | cons p rest ih =>
      obtain ⟨k, s⟩ := p
      intro S
      rw [List.cons_append, queryManualG, queryManualG]
      cases h1 : queryStepG deref S k s <;>
        simp [bind, Except.bind, h1, ih]

theorem exceptFilter_congr {α : Type} (p q : α → Except String Bool) :
    ∀ S : List α, (∀ x ∈ S, p x = q x) → exceptFilter p S = exceptFilter q S := by
  intro S
  induction S with
  | nil => intro _; rfl
  | cons x xs ih =>
      intro h
      rw [exceptFilter, exceptFilter, h x (List.mem_cons_self x xs),
        ih (fun y hy => h y (List.mem_cons_of_mem x hy))]

theorem exceptFilter_error {α : Type} (p : α → Except String Bool) (m : String) :
    ∀ S : List α, (∀ x ∈ S, p x = .ok false ∨ p x = .error m) →
      (∃ x ∈ S, p x = .error m) → exceptFilter p S = .error m := by
  intro S
  induction S with
  | nil =>
      intro _ hex
      obtain ⟨x, hx, _⟩ := hex
      exact absurd hx (List.not_mem_nil x)
  | cons x xs ih =>
      intro hall hex
      rcases hall x (List.mem_cons_self x xs) with hx | hx
      · have hxs : ∃ y ∈ xs, p y = .error m := by
          obtain ⟨y, hy, hpy⟩ := hex
          rcases List.mem_cons.mp hy with rfl | hy
          · rw [hx] at hpy; exact absurd hpy (by simp)
          · exact ⟨y, hy, hpy⟩
        rw [exceptFilter, hx, ih (fun y hy => hall y (List.mem_cons_of_mem x hy)) hxs]
        rfl
      · rw [exceptFilter, hx]
        rfl

/-- A single-key query is exactly one monadic filter pass over the
collection. -/
theorem queryManual_single (C : List Doc) (k : String) (s : Spec) :
    queryManual C [(k, s)] = exceptFilter (fun d => stepPredE k s d) C := by
  show queryManualG id C [(k, s)] = _
  rw [queryManualG, queryStepG_eq]
  have hfun : (fun x => stepPredE k s (id x)) = (fun d => stepPredE k s d) := rfl
  rw [hfun]
  cases h : exceptFilter (fun d => stepPredE k s d) C with
  | error e => simp [h, bind, Except.bind]
  | ok r => simp [h, bind, Except.bind, queryManualG, pure, Except.pure]

/-- On a dotted non-`$` key, the per-document `$exists` step raises the
rollback error exactly on the documents containing the top-level field. -/
theorem stepPredE_exists (k k0 k1 : String) (rest : List String) (v : Val) (d : Doc)
    (hsplit : splitDot k = k0 :: k1 :: rest) (hnd : startsDollar k0 = false) :
    stepPredE k (.opq "$exists" v) d =
      if hasKey d k0 then .error existsRollbackMsg else .ok false := by
  have hlen : (decide ((splitDot k).length > 1) || startsDollar ((splitDot k).headD "")) =
      true := by
    rw [hsplit]
    simp
  have hval : valMatch (splitDot k) (.opq "$exists" v) d = .error existsRollbackMsg := by
    rw [valMatch]
    rw [hsplit] at hlen ⊢
    simp only [List.headD] at hlen ⊢
    rw [if_pos hlen]
    rfl
  rw [stepPredE]
  rw [hsplit]
  simp only [List.headD_eq_head?, List.head?_cons, Option.getD_some, hnd,
    Bool.false_eq_true, if_false]
  by_cases hk : hasKey d k0
  · rw [if_pos hk, if_pos hk]
    rw [hsplit] at hval
    exact hval
  · rw [if_neg hk, if_neg hk]
    rfl

/-- Boolean-mask indexing with the elementwise image of a predicate is a
plain filter. -/
theorem maskFilter_map {α : Type} (p : α → Bool) :
    ∀ xs : List α, maskFilter xs (xs.map p) = xs.filter p := by
  intro xs
  induction xs with
  | nil => rfl
  | cons x xs ih =>
      cases hpx : p x <;> simp [maskFilter, List.filter_cons, hpx, ih]

/-- The head of a filtered list is its first match. -/
theorem head?_filter_eq_find? {α : Type} (p : α → Bool) :
    ∀ xs : List α, (xs.filter p).head? = xs.find? p := by
  intro xs
  induction xs with
  | nil => rfl
  | cons x xs ih =>
      rw [List.filter_cons, List.find?]
      cases p x <;> simp [ih]

/-- The first match of a predicate with a unique witness is that witness. -/
theorem find?_unique {α : Type} (p : α → Bool) (e : α) :
    ∀ xs : List α, e ∈ xs → p e = true → (∀ x ∈ xs, p x = true → x = e) →
      xs.find? p = some e := by
  intro xs
  induction xs with
  | nil => intro h; exact absurd h (List.not_mem_nil e)
  | cons x xs ih =>
      intro hmem hpe huniq
      rw [List.find?]
      cases hx : p x with
      | true =>
          have : x = e := huniq x (List.mem_cons_self x xs) hx
          rw [this]
      | false =>
          have hmem' : e ∈ xs := by
            rcases List.mem_cons.mp hmem with rfl | h
            · rw [hpe] at hx; exact absurd hx (by simp)
            · exact h
          exact ih hmem' hpe (fun y hy => huniq y (List.mem_cons_of_mem x hy))

/-- When every entry carries a `reference`, the comprehension
`[x['reference'] for x in val]` succeeds and is the elementwise map. -/
theorem mapM_getReference :
    ∀ es : List Entry, (∀ x ∈ es, (List.lookup "reference" x).isSome) →
      es.mapM getReference = .ok (es.map refOf) := by
  intro es
  induction es with
  | nil => intro _; rfl
  | cons e es ih =>
      intro h
      have he := h e (List.mem_cons_self e es)
      obtain ⟨r, hr⟩ := Option.isSome_iff_exists.mp he
      have hes := ih (fun y hy => h y (List.mem_cons_of_mem e hy))
      rw [List.mapM_cons, List.map_cons]
      simp only [getReference, hr, hes, refOf, bind, Except.bind, pure, Except.pure,
        Option.getD_some]

/-- The best-flag branch of `selectEntry`: with several entries and no
curation override, the selected entry is the first one flagged
`best == 1`. -/
theorem selectEntry_best (cur : List (String × Val)) (k : String) (es : List Entry)
    (h1 : 1 < es.length) (h2 : List.lookup k cur = none) :
    selectEntry cur k es = .ok (es.find? bestOne) := by
  rw [selectEntry.eq_def, if_pos h1, h2, maskFilter_map, head?_filter_eq_find?]
  rfl

/-- The curation branch of `selectEntry`: with several entries, an
override for the field, and a `reference` on every entry, the selected
entry is the first one whose reference equals the override. -/
theorem selectEntry_override (cur : List (String × Val)) (k : String) (es : List Entry)
    (cref : Val) (h1 : 1 < es.length) (h2 : List.lookup k cur = some cref)
    (h3 : ∀ x ∈ es, (List.lookup "reference" x).isSome) :
    selectEntry cur k es = .ok (es.find? (fun x => evalEqV (refOf x) cref)) := by
  rw [selectEntry.eq_def, if_pos h1, h2, mapM_getReference es h3]
  simp only [bind, Except.bind, List.map_map, pure, Except.pure]
  rw [Function.comp_def, maskFilter_map, head?_filter_eq_find?]

/-- A key appears in a materialized row only through a field of the
document; a key bound only to multi-valued fields whose selection is
empty (or not bound at all) is absent from the row. -/
theorem buildRow_lookup_none (validUnit : EVal → Bool) (cur : List (String × Val))
    (k : String) :
    ∀ (d : Doc) (row : List (String × MatVal)),
      (∀ f : Field, (k, f) ∈ d →
        ∃ es : List Entry, f = .entries es ∧ selectEntry cur k es = .ok none) →
      buildRow validUnit cur d = .ok row → List.lookup k row = none := by
  intro d
  induction d with
  | nil =>
      intro row _ h
      simp only [buildRow, pure, Except.pure, Except.ok.injEq] at h
      rw [← h]
      rfl
  | cons kf rest ih =>
      obtain ⟨k', f⟩ := kf
      intro row hspec h
      have hrestspec : ∀ f : Field, (k, f) ∈ rest →
          ∃ es : List Entry, f = .entries es ∧ selectEntry cur k es = .ok none :=
        fun f hf => hspec f (List.mem_cons_of_mem _ hf)
      by_cases hkk : k' = k
      · subst hkk
        obtain ⟨es, hes, hsel⟩ := hspec f (List.mem_cons_self _ _)
        subst hes
        rw [buildRow, hsel] at h
        simp only [bind, Except.bind] at h
        exact ih row hrestspec h
      · have hbeq : (k == k') = false := by simp [Ne.symm hkk]
        cases f with
        | scalar v =>
            rw [buildRow] at h
            cases hrest : buildRow validUnit cur rest with
            | error e => rw [hrest] at h; simp [bind, Except.bind] at h
            | ok row' =>
                rw [hrest] at h
                simp only [bind, Except.bind, pure, Except.pure, Except.ok.injEq] at h
                rw [← h]
                simp only [List.lookup, hbeq]
                exact ih row' hrestspec hrest
        | entries es =>
            rw [buildRow] at h
            cases hsel : selectEntry cur k' es with
            | error e => rw [hsel] at h; simp [bind, Except.bind] at h
            | ok sel =>
                rw [hsel] at h
                simp only [bind, Except.bind] at h
                cases sel with
                | none => exact ih row hrestspec h
                | some e =>
                    dsimp only at h
                    cases hmv : extractVal validUnit e with
                    | error msg => rw [hmv] at h; simp [bind, Except.bind] at h
                    | ok mv =>
                        rw [hmv] at h
                        simp only [bind, Except.bind] at h
                        cases hrest : buildRow validUnit cur rest with
                        | error e2 => rw [hrest] at h; simp [bind, Except.bind] at h
                        | ok row' =>
                            rw [hrest] at h
                            simp only [pure, Except.pure, Except.ok.injEq] at h
                            rw [← h]
                            simp only [List.lookup, hbeq]
                            exact ih row' hrestspec hrest

/-- Setting the element right after a prefix replaces the head of the
suffix. -/
theorem set_append_cons (x l : Doc) :
    ∀ (H : List Doc) (L : List Doc), (H ++ l :: L).set H.length x = H ++ x :: L := by
  intro H
  induction H with
  | nil => intro L; rfl
  | cons h hs ih => intro L; simp [List.set, ih]

/-- The mutation loop of reference embedding rewrites exactly the freshly
allocated suffix, in place, with the embedded documents. -/
theorem embedMutate_spec (refs : List Reference) (ridc : String) :
    ∀ (L H : List Doc),
      embedMutate refs ridc (H ++ L) (List.range' H.length L.length) =
        H ++ L.map (embedDoc refs ridc) := by
  intro L
  induction L with
  | nil => intro H; simp [embedMutate]
  | cons l L ih =>
      intro H
      rw [List.length_cons, List.range'_succ, embedMutate]
      have hget : (H ++ l :: L).getD H.length [] = l := by
        rw [List.getD_eq_getElem?_getD, List.getElem?_append_right (le_refl H.length)]
        simp
      rw [hget, set_append_cons]
      have hstep := ih (H ++ [embedDoc refs ridc l])
      rw [List.length_append, List.length_singleton] at hstep
      rw [← List.append_cons, ← List.append_cons] at hstep
      rw [List.map_cons]
      exact hstep

/-- Shared helper for the `$exists` rejection: on a dotted non-`$` key,
when some document contains the top-level field, the query raises the
rollback error. -/
theorem exists_reject_of_present (C : List Doc) (k k0 k1 : String)
    (rest : List String) (v : Val) (d : Doc)
    (hsplit : splitDot k = k0 :: k1 :: rest) (hnd : startsDollar k0 = false)
    (hd : d ∈ C) (hhas : hasKey d k0 = true) :
    queryManual C [(k, .opq "$exists" v)] = .error existsRollbackMsg := by
  rw [queryManual_single]
  apply exceptFilter_error
  · intro x _
    rw [stepPredE_exists k k0 k1 rest v x hsplit hnd]
    by_cases hx : hasKey x k0
    · right; rw [if_pos hx]
    · left; rw [if_neg hx]
  · exact ⟨d, hd, by rw [stepPredE_exists k k0 k1 rest v d hsplit hnd, if_pos hhas]⟩

/-- C1: for queries `Q1`, `Q2` with disjoint field keys whose separate
evaluations succeed, evaluating the merged query `{**Q1, **Q2}` (key
concatenation, as in a Python dict merge of disjoint keys) returns
exactly the intersection, by document identity, of the two separate
results, as a subsequence of the collection in collection order; the
composition is commutative, and associative on a third query. -/
theorem c1_and_intersection_comm_assoc (C : List Doc) (Q1 Q2 Q3 : Query)
    (r1 r2 : List Doc)
    (hdisj : ∀ k ∈ Q1.map Prod.fst, k ∉ Q2.map Prod.fst)
    (h1 : queryManual C Q1 = .ok r1) (h2 : queryManual C Q2 = .ok r2) :
    queryManual C (Q1 ++ Q2) =
        .ok (C.filter (fun d => decide (d ∈ r1) && decide (d ∈ r2))) ∧
    queryManual C (Q1 ++ Q2) = queryManual C (Q2 ++ Q1) ∧
    queryManual C ((Q1 ++ Q2) ++ Q3) = queryManual C (Q1 ++ (Q2 ++ Q3)) := by
  have h1' : queryManualG id C Q1 = .ok r1 := h1
  have h2' : queryManualG id C Q2 = .ok r2 := h2
  obtain ⟨hr1, hst1⟩ := queryManualG_ok id Q1 C r1 h1'
  obtain ⟨hr2, hst2⟩ := queryManualG_ok id Q2 C r2 h2'
  have hsub1 : ∀ x, x ∈ r1 → x ∈ C := by
    intro x hx; rw [hr1] at hx; exact (List.mem_filter.mp hx).1
  have hsub2 : ∀ x, x ∈ r2 → x ∈ C := by
    intro x hx; rw [hr2] at hx; exact (List.mem_filter.mp hx).1
  have hm1 : ∀ d ∈ C, decide (d ∈ r1) = qPredB id Q1 d := by
    intro d hd
    have hiff : d ∈ r1 ↔ qPredB id Q1 d = true := by
      rw [hr1, List.mem_filter]
      simp [hd]
    cases hq : qPredB id Q1 d
    · rw [hq] at hiff; simp only [Bool.false_eq_true, iff_false] at hiff; simp [hiff]
    · rw [hq] at hiff; simp [hiff.mpr rfl]
  have hm2 : ∀ d ∈ C, decide (d ∈ r2) = qPredB id Q2 d := by
    intro d hd
    have hiff : d ∈ r2 ↔ qPredB id Q2 d = true := by
      rw [hr2, List.mem_filter]
      simp [hd]
    cases hq : qPredB id Q2 d
    · rw [hq] at hiff; simp only [Bool.false_eq_true, iff_false] at hiff; simp [hiff]
    · rw [hq] at hiff; simp [hiff.mpr rfl]
  have h12 : queryManual C (Q1 ++ Q2) =
      .ok ((C.filter (qPredB id Q1)).filter (qPredB id Q2)) := by
    show queryManualG id C (Q1 ++ Q2) = _
    rw [queryManualG_append, h1']
    show queryManualG id r1 Q2 = _
    rw [hst2 r1 hsub1, hr1]
  have h21 : queryManual C (Q2 ++ Q1) =
      .ok ((C.filter (qPredB id Q2)).filter (qPredB id Q1)) := by
    show queryManualG id C (Q2 ++ Q1) = _
    rw [queryManualG_append, h2']
    show queryManualG id r2 Q1 = _
    rw [hst1 r2 hsub2, hr2]
  have hf12 : (C.filter (qPredB id Q1)).filter (qPredB id Q2) =
      C.filter (fun d => decide (d ∈ r1) && decide (d ∈ r2)) := by
    rw [List.filter_filter]
    refine List.filter_congr ?_
    intro d hd
    rw [hm1 d hd, hm2 d hd, Bool.and_comm]
  have hf21 : (C.filter (qPredB id Q2)).filter (qPredB id Q1) =
      C.filter (fun d => decide (d ∈ r1) && decide (d ∈ r2)) := by
    rw [List.filter_filter]
    refine List.filter_congr ?_
    intro d hd
    rw [hm1 d hd, hm2 d hd]
  refine ⟨?_, ?_, ?_⟩
  · rw [h12, hf12]
  · rw [h12, h21, hf12, hf21]
  · rw [List.append_assoc]

/-- C1 witness: a name query merged with a `$lt` query on the sample
collection. -/
theorem c1_witness :
    queryManual exDb ([("name", Spec.lit (.vStr "Gal 1"))] ++
        [("v_mag.value", Spec.opq "$lt" (.vNum 21))]) =
      .ok (exDb.filter (fun d => decide (d ∈ [exGal1]) && decide (d ∈ exDb))) ∧
    queryManual exDb ([("name", Spec.lit (.vStr "Gal 1"))] ++
        [("v_mag.value", Spec.opq "$lt" (.vNum 21))]) =
      queryManual exDb ([("v_mag.value", Spec.opq "$lt" (.vNum 21))] ++
        [("name", Spec.lit (.vStr "Gal 1"))]) ∧
    queryManual exDb (([("name", Spec.lit (.vStr "Gal 1"))] ++
        [("v_mag.value", Spec.opq "$lt" (.vNum 21))]) ++ []) =
      queryManual exDb ([("name", Spec.lit (.vStr "Gal 1"))] ++
        ([("v_mag.value", Spec.opq "$lt" (.vNum 21))] ++ [])) :=
  c1_and_intersection_comm_assoc exDb
    [("name", Spec.lit (.vStr "Gal 1"))]
    [("v_mag.value", Spec.opq "$lt" (.vNum 21))] [] [exGal1] exDb
    (by decide) (by decide) (by decide)

/-- Per-document evaluation of a two-sub-query `$or` key with single-key
sub-queries: when both sub-query predicates return, the `$or` step returns
their disjunction (the accumulation of `temp_list` over the sub-query
list). -/
theorem stepPredE_or_pair (k1 : String) (s1 : Spec) (k2 : String) (s2 : Spec)
    (d : Doc) (a b : Bool)
    (hnd1 : startsDollar ((splitDot k1).headD "") = false)
    (hnd2 : startsDollar ((splitDot k2).headD "") = false)
    (h1 : stepPredE k1 s1 d = .ok a) (h2 : stepPredE k2 s2 d = .ok b) :
    stepPredE "$or" (.orq (.ocons (.scons k1 s1 .snil)
        (.ocons (.scons k2 s2 .snil) .onil))) d = .ok (a || b) := by
  have e1 : (if hasKey d ((splitDot k1).headD "") then valMatch (splitDot k1) s1 d
      else pure false) = .ok a := by
    rw [← h1, stepPredE, hnd1]
    simp
  have e2 : (if hasKey d ((splitDot k2).headD "") then valMatch (splitDot k2) s2 d
      else pure false) = .ok b := by
    rw [← h2, stepPredE, hnd2]
    simp
  have hred : stepPredE "$or" (.orq (.ocons (.scons k1 s1 .snil)
      (.ocons (.scons k2 s2 .snil) .onil))) d =
        orAny (.ocons (.scons k1 s1 .snil) (.ocons (.scons k2 s2 .snil) .onil)) d := rfl
  rw [hred]
  simp only [orAny, orOne]
  simp only [List.headD_eq_head?] at e1 e2 ⊢
  by_cases hk1 : hasKey d ((splitDot k1).head?.getD "") <;>
    by_cases hk2 : hasKey d ((splitDot k2).head?.getD "")
  · rw [if_pos hk1] at e1
    rw [if_pos hk2] at e2
    simp [hk1, hk2, e1, e2, bind, Except.bind, pure, Except.pure]
  · rw [if_pos hk1] at e1
    rw [if_neg hk2] at e2
    have hb : false = b := by
      simpa only [pure, Except.pure, Except.ok.injEq] using e2
    simp [hk1, hk2, e1, ← hb, bind, Except.bind, pure, Except.pure]
  · rw [if_neg hk1] at e1
    rw [if_pos hk2] at e2
    have ha : false = a := by
      simpa only [pure, Except.pure, Except.ok.injEq] using e1
    simp [hk1, hk2, e2, ← ha, bind, Except.bind, pure, Except.pure]
  · rw [if_neg hk1] at e1
    rw [if_neg hk2] at e2
    have ha : false = a := by
      simpa only [pure, Except.pure, Except.ok.injEq] using e1
    have hb : false = b := by
      simpa only [pure, Except.pure, Except.ok.injEq] using e2
    simp [hk1, hk2, ← ha, ← hb, bind, Except.bind, pure, Except.pure]

/-- C2 (amended): for two single-key sub-queries with plain
(non-`$`-prefixed) keys whose separate evaluations succeed, the `$or`
query returns exactly the union, by document identity, of the two
separate results, in collection order. -/
theorem c2_or_union_single_key (C : List Doc) (k1 k2 : String) (s1 s2 : Spec)
    (r1 r2 : List Doc)
    (hnd1 : startsDollar ((splitDot k1).headD "") = false)
    (hnd2 : startsDollar ((splitDot k2).headD "") = false)
    (h1 : queryManual C [(k1, s1)] = .ok r1)
    (h2 : queryManual C [(k2, s2)] = .ok r2) :
    queryManual C [("$or", .orq (.ocons (.scons k1 s1 .snil)
        (.ocons (.scons k2 s2 .snil) .onil)))] =
      .ok (C.filter (fun d => decide (d ∈ r1) || decide (d ∈ r2))) := by
  rw [queryManual_single] at h1 h2 ⊢
  obtain ⟨hall1, hr1⟩ := exceptFilter_ok_elim _ C r1 h1
  obtain ⟨hall2, hr2⟩ := exceptFilter_ok_elim _ C r2 h2
  have hok : ∀ d ∈ C, ∃ c, stepPredE "$or" (.orq (.ocons (.scons k1 s1 .snil)
      (.ocons (.scons k2 s2 .snil) .onil))) d = .ok c := by
    intro d hd
    obtain ⟨a, ha⟩ := hall1 d hd
    obtain ⟨b, hb⟩ := hall2 d hd
    exact ⟨a || b, stepPredE_or_pair k1 s1 k2 s2 d a b hnd1 hnd2 ha hb⟩
  rw [exceptFilter_ok_of _ C hok]
  congr 1
  refine List.filter_congr ?_
  intro d hd
  obtain ⟨a, ha⟩ := hall1 d hd
  obtain ⟨b, hb⟩ := hall2 d hd
  rw [stepPredE_or_pair k1 s1 k2 s2 d a b hnd1 hnd2 ha hb]
  have hm1 : decide (d ∈ r1) = a := by
    rw [hr1]
    cases a
    · simp [List.mem_filter, ha, okTrue]
    · simp [List.mem_filter, ha, okTrue, hd]
  have hm2 : decide (d ∈ r2) = b := by
    rw [hr2]
    cases b
    · simp [List.mem_filter, hb, okTrue]
    · simp [List.mem_filter, hb, okTrue, hd]
  simp [okTrue, hm1, hm2]

/-- C2 counterexample: a multi-key `$or` sub-query is unioned over its
keys (not evaluated as an AND), so the `$or` result strictly exceeds the
union of the separate evaluations.  Here the collection has one record;
sub-query 1 is `{"name": "Gal 1", "absent_field": 1}` (which matches
nothing when evaluated on its own), sub-query 2 matches nothing, yet the
`$or` query returns the record. -/
theorem c2_or_union_counterexample :
    queryManual [exGal1]
        [("$or", Spec.orq (.ocons (.scons "name" (.lit (.vStr "Gal 1"))
            (.scons "absent_field" (.lit (.vNum 1)) .snil))
          (.ocons (.scons "name" (.lit (.vStr "ZZZ")) .snil) .onil)))] = .ok [exGal1] ∧
    queryManual [exGal1]
        [("name", Spec.lit (.vStr "Gal 1")), ("absent_field", Spec.lit (.vNum 1))] =
      .ok [] ∧
    queryManual [exGal1] [("name", Spec.lit (.vStr "ZZZ"))] = .ok [] := by
  refine ⟨by decide, by decide, by decide⟩

/-- C2 witness: a name query or a `$gte` query on the sample collection. -/
theorem c2_witness :
    queryManual exDb [("$or", Spec.orq (.ocons (.scons "name"
        (.lit (.vStr "Gal 1")) .snil)
      (.ocons (.scons "v_mag.value" (.opq "$gte" (.vNum 15)) .snil) .onil)))] =
      .ok (exDb.filter (fun d => decide (d ∈ [exGal1]) || decide (d ∈ [exGal2]))) :=
  c2_or_union_single_key exDb "name" "v_mag.value"
    (.lit (.vStr "Gal 1")) (.opq "$gte" (.vNum 15)) [exGal1] [exGal2]
    (by decide) (by decide) (by decide) (by decide)

/-- C3 (amended): the in-memory evaluator rejects `$exists` on a dotted
non-`$` field path with the explicit rollback error whenever at least one
document contains the top-level field (survives the presence pre-filter);
in particular this covers the Gal 1 / Gal 2 scenario of the claim. -/
theorem c3_exists_rejection_amended (C : List Doc) (k k0 k1 : String)
    (rest : List String) (v : Val) (d : Doc)
    (hsplit : splitDot k = k0 :: k1 :: rest) (hnd : startsDollar k0 = false)
    (hd : d ∈ C) (hhas : hasKey d k0 = true) :
    queryManual C [(k, .opq "$exists" v)] = .error existsRollbackMsg :=
  exists_reject_of_present C k k0 k1 rest v d hsplit hnd hd hhas

/-- C3 counterexample: on a collection where no document carries the
`radial_velocity` field, the `$exists: False` query returns a silently
empty result (which is even wrong under MongoDB semantics, where every
document would match) instead of raising the explicit rejection, so the
claim as universally stated fails. -/
theorem c3_exists_rejection_counterexample :
    queryManual [exGal2]
        [("radial_velocity.value", Spec.opq "$exists" (.vBool false))] = .ok [] := by
  decide

/-- C3 witness: the Gal 1 / Gal 2 scenario raises the rejection. -/
theorem c3_witness :
    queryManual exDb [("radial_velocity.value", Spec.opq "$exists" (.vBool true))] =
      .error existsRollbackMsg :=
  c3_exists_rejection_amended exDb "radial_velocity.value" "radial_velocity" "value"
    [] (.vBool true) exGal1 (by decide) (by decide) (by decide) (by decide)

/-- C5: for a plain (non-`$`) query key, the value/operator filter is
applied whenever at least one candidate survives the presence pre-filter;
in particular, when exactly one document contains the field and its
entries fail the value test, that document is excluded (the result is
empty) rather than passing on presence alone. -/
theorem c5_value_filter_applied (C : List Doc) (k : String) (s : Spec) (d : Doc)
    (hnd : startsDollar ((splitDot k).headD "") = false)
    (hpres : C.filter (fun x => hasKey x ((splitDot k).headD "")) = [d])
    (hval : valMatch (splitDot k) s d = .ok false) :
    queryManual C [(k, s)] =
        exceptFilter (fun x => valMatch (splitDot k) s x) [d] ∧
    queryManual C [(k, s)] = .ok [] := by
  have hfilter : queryManual C [(k, s)] =
      exceptFilter (fun x => valMatch (splitDot k) s x) [d] := by
    rw [queryManual_single]
    have hgate : ∀ x ∈ C, stepPredE k s x =
        (if hasKey x ((splitDot k).headD "") then valMatch (splitDot k) s x
         else pure false) := by
      intro x _
      rw [stepPredE, hnd]
      simp
    rw [exceptFilter_congr _ _ C hgate]
    rw [show exceptFilter (fun x => if hasKey x ((splitDot k).headD "")
          then valMatch (splitDot k) s x else pure false) C =
        exceptFilter (fun x => valMatch (splitDot k) s x)
          (C.filter (fun x => hasKey x ((splitDot k).headD ""))) from
      (exceptFilter_gate _ _ C).symm]
    rw [hpres]
  refine ⟨hfilter, ?_⟩
  rw [hfilter, exceptFilter, hval, exceptFilter]
  rfl

/-- C5 witness: `Gal 1` alone carries `radial_velocity`, its value is
-120, and the literal query for 5 returns the empty result. -/
theorem c5_witness :
    queryManual exDb [("radial_velocity.value", Spec.lit (.vNum 5))] =
        exceptFilter (fun x => valMatch (splitDot "radial_velocity.value")
          (Spec.lit (.vNum 5)) x) [exGal1] ∧
    queryManual exDb [("radial_velocity.value", Spec.lit (.vNum 5))] = .ok [] :=
  c5_value_filter_applied exDb "radial_velocity.value" (.lit (.vNum 5)) exGal1
    (by decide) (by decide) (by decide)

/-- C10: for a dotted non-`$` path under an `{"$exists": b}` spec, the
rejection is gated by the presence pre-filter: when no document contains
the top-level field the query returns an empty result without raising,
and the explicit rejection is raised exactly when some document survives
the presence filter. -/
theorem c10_exists_presence_gate (C : List Doc) (k k0 k1 : String)
    (rest : List String) (v : Val)
    (hsplit : splitDot k = k0 :: k1 :: rest) (hnd : startsDollar k0 = false) :
    ((∀ d ∈ C, hasKey d k0 = false) →
        queryManual C [(k, .opq "$exists" v)] = .ok []) ∧
    ((∃ d ∈ C, hasKey d k0 = true) →
        queryManual C [(k, .opq "$exists" v)] = .error existsRollbackMsg) := by
  constructor
  · intro hall
    rw [queryManual_single]
    have hfalse : ∀ x ∈ C, stepPredE k (.opq "$exists" v) x = .ok false := by
      intro x hx
      rw [stepPredE_exists k k0 k1 rest v x hsplit hnd, if_neg]
      simp [hall x hx]
    rw [exceptFilter_ok_of _ C (fun x hx => ⟨false, hfalse x hx⟩)]
    congr 1
    refine List.filter_eq_nil_iff.mpr ?_
    intro a ha
    rw [hfalse a ha]
    simp [okTrue]
  · rintro ⟨d, hd, hhas⟩
    exact exists_reject_of_present C k k0 k1 rest v d hsplit hnd hd hhas

/-- C10 witness: both sides of the gate, on a field-free collection and on
the sample collection. -/
theorem c10_witness :
    queryManual [exGal2]
        [("radial_velocity.value", Spec.opq "$exists" (.vBool true))] = .ok [] ∧
    queryManual exDb
        [("radial_velocity.value", Spec.opq "$exists" (.vBool false))] =
      .error existsRollbackMsg :=
  ⟨(c10_exists_presence_gate [exGal2] "radial_velocity.value" "radial_velocity"
      "value" [] (.vBool true) (by decide) (by decide)).1 (by decide),
   (c10_exists_presence_gate exDb "radial_velocity.value" "radial_velocity"
      "value" [] (.vBool false) (by decide) (by decide)).2
    ⟨exGal1, by decide, by decide⟩⟩

/-- C4: the entry-selection rule of `query_table` materialization.  With
exactly one entry the entry is selected unconditionally for every
curation (best flags and overrides are not consulted); with several
entries and an override naming the field, the entry whose reference
equals the override is selected (given references on all entries and a
first match); with several entries and no override, the unique
`best == 1` entry is selected; when the mask selects nothing the
selection is empty without error; and a field with empty selection is
omitted from the built row. -/
theorem c4_materializer_selection (validUnit : EVal → Bool)
    (cur : List (String × Val)) (k : String) :
    (∀ e : Entry, selectEntry cur k [e] = .ok (some e)) ∧
    (∀ (es : List Entry) (cref : Val) (e : Entry),
        1 < es.length → List.lookup k cur = some cref →
        (∀ x ∈ es, (List.lookup "reference" x).isSome) →
        es.find? (fun x => evalEqV (refOf x) cref) = some e →
        selectEntry cur k es = .ok (some e)) ∧
    (∀ (es : List Entry) (e : Entry),
        1 < es.length → List.lookup k cur = none →
        e ∈ es → bestOne e = true → (∀ x ∈ es, bestOne x = true → x = e) →
        selectEntry cur k es = .ok (some e)) ∧
    (∀ es : List Entry,
        1 < es.length → List.lookup k cur = none →
        (∀ x ∈ es, bestOne x = false) →
        selectEntry cur k es = .ok none) ∧
    (∀ (d1 d2 : Doc) (es : List Entry) (row : List (String × MatVal)),
        selectEntry cur k es = .ok none →
        k ∉ d1.map Prod.fst → k ∉ d2.map Prod.fst →
        buildRow validUnit cur (d1 ++ (k, .entries es) :: d2) = .ok row →
        List.lookup k row = none) := by
  refine ⟨?_, ?_, ?_, ?_, ?_⟩
  · intro e
    rfl
  · intro es cref e h1 h2 h3 hfind
    rw [selectEntry_override cur k es cref h1 h2 h3, hfind]
  · intro es e h1 h2 hmem hbest huniq
    rw [selectEntry_best cur k es h1 h2, find?_unique bestOne e es hmem hbest huniq]
  · intro es h1 h2 hall
    rw [selectEntry_best cur k es h1 h2]
    have : es.find? bestOne = none := List.find?_eq_none.mpr (fun x hx => by simp [hall x hx])
    rw [this]
  · intro d1 d2 es row hsel hk1 hk2 h
    refine buildRow_lookup_none validUnit cur k _ row ?_ h
    intro f hf
    rcases List.mem_append.mp hf with hf1 | hf2
    · exact absurd (List.mem_map.mpr ⟨(k, f), hf1, rfl⟩) hk1
    · rcases List.mem_cons.mp hf2 with heq | hf2
      · exact ⟨es, by injection heq, hsel⟩
      · exact absurd (List.mem_map.mpr ⟨(k, f), hf2, rfl⟩) hk2

/-- C4 witness: single-entry unconditional pick under an override,
override pick, unique-best pick, empty selection, and the omission of the
field from a concrete row. -/
theorem c4_witness :
    selectEntry [("ra", Val.vStr "FakeRef2019")] "ra" [exRaBest] = .ok (some exRaBest) ∧
    selectEntry [("ra", Val.vStr "FakeRef2019")] "ra" exRa = .ok (some exRaFake) ∧
    selectEntry [] "ra" exRa = .ok (some exRaBest) ∧
    selectEntry [] "ra" exNoBest = .ok none ∧
    List.lookup "ra" ([("name", MatVal.bare (.prim (.vStr "G")))]) = none :=
  ⟨(c4_materializer_selection (fun _ => true) [("ra", Val.vStr "FakeRef2019")] "ra").1
      exRaBest,
   (c4_materializer_selection (fun _ => true) [("ra", Val.vStr "FakeRef2019")] "ra").2.1
      exRa (.vStr "FakeRef2019") exRaFake (by decide) (by decide) (by decide) (by decide),
   (c4_materializer_selection (fun _ => true) [] "ra").2.2.1
      exRa exRaBest (by decide) (by decide) (by decide) (by decide) (by decide),
   (c4_materializer_selection (fun _ => true) [] "ra").2.2.2.1
      exNoBest (by decide) (by decide) (by decide),
   (c4_materializer_selection (fun _ => true) [] "ra").2.2.2.2
      [("name", .scalar (.vStr "G"))] [] exNoBest
      [("name", MatVal.bare (.prim (.vStr "G")))]
      (by decide) (by decide) (by decide) (by decide)⟩

/-- C9: in the no-override multi-entry branch, the materializer selects
the first entry whose `best` flag equals 1 in entry order (several
`best == 1` entries raise no error, the first is emitted), and an entry
with no `best` key at all counts as `best == 0`, never selected. -/
theorem c9_best_selection_first_match (cur : List (String × Val)) (k : String)
    (es : List Entry) (h1 : 1 < es.length) (h2 : List.lookup k cur = none) :
    selectEntry cur k es = .ok (es.find? bestOne) ∧
    (∀ e : Entry, List.lookup "best" e = none → bestOne e = false) := by
  refine ⟨selectEntry_best cur k es h1 h2, ?_⟩
  intro e he
  rw [bestOne, he]
  rfl

/-- C9 witness: three entries, the first without a best key and the
second and third both flagged best; the selection is the second entry. -/
theorem c9_witness :
    selectEntry [] "x" exMulti = .ok (exMulti.find? bestOne) ∧
    bestOne [("value", EVal.prim (.vNum 1))] = false :=
  ⟨(c9_best_selection_first_match [] "x" exMulti (by decide) (by decide)).1,
   (c9_best_selection_first_match [] "x" exMulti (by decide) (by decide)).2
      [("value", EVal.prim (.vNum 1))] (by decide)⟩

/-- C6 (amended): when the candidate passes the name check and all value
checks but matches no stored record, `Validator.run_one` returns `False`:
the unmatched record is surfaced by a printed WARNING message, but it
counts as a validation failure (the existence check is conjoined into the
result), not as a passing warning. -/
theorem c6_validator_unmatched_amended (validUnit : EVal → Bool) (S : List Doc)
    (refs : List Reference) (idc : String) (rc : Bool) (cand : Doc) (nm : Val)
    (hname : checkName idc cand = .ok nm)
    (hmatch : queryManual S [(idc, .lit nm)] = .ok [])
    (hvals : checkValues validUnit rc refs idc cand = .ok true) :
    runOne validUnit S refs idc rc cand = .ok false := by
  unfold runOne checkExists
  rw [hname]
  simp only [bind, Except.bind]
  rw [hmatch]
  simp [bind, Except.bind, pure, Except.pure, hvals]

/-- C6 counterexample: a concrete candidate with a valid name and passing
per-entry checks, unmatched in the collection; `run_one` returns `False`,
refuting the claim that the run returns `True` with only a warning. -/
theorem c6_validator_unmatched_counterexample :
    runOne (fun _ => true) exDb exRefs "name" true exGal9 = .ok false ∧
    checkName "name" exGal9 = .ok (.vStr "Gal 9") ∧
    checkValues (fun _ => true) true exRefs "name" exGal9 = .ok true := by
  refine ⟨by decide, by decide, by decide⟩

/-- C6 witness: a field-free unmatched candidate also fails the run. -/
theorem c6_witness :
    runOne (fun _ => false) exDb exRefs "name" false
      [("name", Field.scalar (.vStr "Gal 8"))] = .ok false :=
  c6_validator_unmatched_amended (fun _ => false) exDb exRefs "name" false
    [("name", Field.scalar (.vStr "Gal 8"))] (.vStr "Gal 8")
    (by decide) (by decide) (by decide)

/-- C7 (code bug): `add_data` evaluates `self.query_db({id: name})[0]`
before its `len(old_doc) == 0` guard, so an update whose name matches no
document raises an `IndexError` when validation is skipped, instead of
printing the intended notice and returning; with validation enabled the
call is only saved by the validator failing first (`Failed validation`,
collection unchanged), and the notice branch of lines 368-370 is
unreachable either way. -/
theorem c7_add_data_unmatched_raises :
    addData (fun _ => true) exDb exRefs "name" false false exGal9 =
      .error "IndexError: index 0 is out of bounds" ∧
    addData (fun _ => true) exDb exRefs "name" true false exGal9 =
      .ok (exDb, "Failed validation") := by
  refine ⟨by decide, by decide⟩

/-- C8: with reference embedding enabled, every document of the stored
collection (every heap cell below the original heap length, hence every
address of `db`) is unchanged by the call; the new heap is exactly the old
heap extended with the embedded copies, and the returned addresses are
the fresh ones, so only the returned copies carry embedded references. -/
theorem c8_embed_ref_preserves_collection (H : List Doc) (db res res' : List Nat)
    (refs : List Reference) (ridc : String) (q : Query) (H' : List Doc)
    (hres : queryManualG (fun a => H.getD a []) db q = .ok res)
    (hemb : queryDbEmbed H db refs ridc q = .ok (H', res')) :
    (∀ a, a < H.length → H'.getD a [] = H.getD a []) ∧
    H' = H ++ res.map (fun a => embedDoc refs ridc (H.getD a [])) ∧
    res' = List.range' H.length res.length := by
  unfold queryDbEmbed at hemb
  rw [hres] at hemb
  simp only [bind, Except.bind, deepcopyFresh, pure, Except.pure, Except.ok.injEq,
    Prod.mk.injEq, List.length_map] at hemb
  obtain ⟨hH, hres'⟩ := hemb
  have hmut := embedMutate_spec refs ridc (res.map (fun a => H.getD a [])) H
  rw [List.length_map] at hmut
  rw [hmut, List.map_map] at hH
  have hH2 : H' = H ++ res.map (fun a => embedDoc refs ridc (H.getD a [])) := by
    rw [← hH]
    rfl
  refine ⟨?_, hH2, hres'.symm⟩
  intro a ha
  rw [hH2, List.getD_eq_getElem?_getD, List.getD_eq_getElem?_getD,
    List.getElem?_append, if_pos ha]

/-- C8 witness: embedding a one-record collection allocates the embedded
copy at the fresh address and leaves the stored record untouched. -/
theorem c8_witness :
    (∀ a, a < ([exGal1] : List Doc).length →
        ([exGal1, embedDoc exRefs "key" exGal1] : List Doc).getD a [] =
          ([exGal1] : List Doc).getD a []) ∧
    ([exGal1, embedDoc exRefs "key" exGal1] : List Doc) =
      [exGal1] ++ ([0] : List Nat).map
        (fun a => embedDoc exRefs "key" (([exGal1] : List Doc).getD a [])) ∧
    ([1] : List Nat) = List.range' ([exGal1] : List Doc).length ([0] : List Nat).length :=
  c8_embed_ref_preserves_collection [exGal1] [0] [0] [1] exRefs "key"
    [("name", .lit (.vStr "Gal 1"))] [exGal1, embedDoc exRefs "key" exGal1]
    (by decide) (by decide)

end Galcat
